import Mathlib

set_option maxRecDepth 8000
/-!
Verification of the CLRP simulated-annealing core.

A shallow embedding of the CLRP (capacitated location-routing problem)
metaheuristic core: the node data model (`node.py`, `depot.py`,
`customer.py`, `dummyzero.py`), the problem instance with its distance
table (`instance.py`), the solution encoding and its cost/feasibility
evaluator (`solution.py`), the three neighborhood operators
(`lsoperator.py`), and the temperature/counter dynamics of the simulated
annealing driver (`clrpsasolver.py`).

Embedding conventions:
* Python `float` quantities (costs, demands, capacities, temperatures)
  are embedded as rationals; `float('inf')` as the top element of
  `WithTop ℚ`.
* Node coordinates are embedded as integers, and the stored distance
  `math.ceil(math.sqrt(dx*dx + dy*dy))` as the exact natural ceiling of
  the square root.
* Python runtime errors (IndexError on out-of-range access, ValueError
  from `random.sample` on a too-small population, AttributeError from
  `None.type`) are embedded as `Option.none` results.
* The global random stream is embedded by passing the drawn numbers as
  explicit arguments.
-/

namespace CLRP

/-- `NodeType` enum from `node.py`. -/
inductive NodeType where
  | BSC
  | DPT
  | CSTMR
  | DZR
deriving DecidableEq, Repr

/-- `Depot` from `depot.py`: name, coordinates, opening cost (`cost`),
capacity, per-route setup cost. The mutable `open` flag is never read by
the core and is omitted. -/
structure Depot where
  name : String
  x : Int
  y : Int
  cost : ℚ
  capacity : ℚ
  route_setup : ℚ
deriving DecidableEq, Repr

/-- `Customer` from `customer.py`. -/
structure Customer where
  name : String
  x : Int
  y : Int
  demand : ℚ
deriving DecidableEq, Repr

/-- `DummyZero` from `dummyzero.py`: the route-break marker. -/
structure DummyZero where
  name : String
  x : Int
  y : Int
deriving DecidableEq, Repr

/-- A `Node` is one of the three concrete subclasses of the abstract
`Node` class (the abstract class itself, of type `BSC`, is never
instantiated by the program). -/
inductive Node where
  | dpt (d : Depot)
  | cstmr (c : Customer)
  | dzr (z : DummyZero)
deriving DecidableEq, Repr

/-- The `type` class attribute of a node. -/
def Node.type : Node → NodeType
  | .dpt _ => .DPT
  | .cstmr _ => .CSTMR
  | .dzr _ => .DZR

def Node.x : Node → Int
  | .dpt d => d.x
  | .cstmr c => c.x
  | .dzr z => z.x

def Node.y : Node → Int
  | .dpt d => d.y
  | .cstmr c => c.y
  | .dzr z => z.y

/-- Natural ceiling of the square root: the embedding of
`math.ceil(math.sqrt n)` for a natural number `n`. -/
def natCeilSqrt (n : ℕ) : ℕ :=
  if Nat.sqrt n * Nat.sqrt n = n then Nat.sqrt n else Nat.sqrt n + 1

/-- `Instance._euclidean_distance` composed with the `math.ceil` applied
in `_create_distance_matrix`: the rounded-up euclidean distance. -/
def ceil_euclid (n1 n2 : Node) : ℚ :=
  (natCeilSqrt (((n1.x - n2.x) ^ 2 + (n1.y - n2.y) ^ 2).toNat) : ℚ)

/-- `Instance` from `instance.py`: the immutable problem data. The
derived fields (`nodes`, `size`, `distance_matrix`) are recomputed by
functions below exactly as `__init__` computes them. -/
structure Instance where
  name : String
  depots : List Depot
  customers : List Customer
  vehicle_capacity : ℚ
  route_setup_cost : ℚ
deriving DecidableEq, Repr

/-- `self.nodes = depots + customers`. -/
def Instance.nodes (inst : Instance) : List Node :=
  inst.depots.map Node.dpt ++ inst.customers.map Node.cstmr

/-- `Instance._create_distance_matrix`: an entry for every ordered pair
of nodes with distinct positions in the `nodes` list. -/
def Instance.distance_matrix (inst : Instance) : List ((Node × Node) × ℚ) :=
  (inst.nodes.enum.map (fun p =>
    (inst.nodes.enum.filterMap (fun q =>
      if p.1 ≠ q.1 then some ((p.2, q.2), ceil_euclid p.2 q.2) else none)))).flatten

/-- `Instance.get_distance`: dictionary lookup with default
`float('inf')`. -/
def Instance.get_distance (inst : Instance) (node1 node2 : Node) : WithTop ℚ :=
  match inst.distance_matrix.find? (fun e => e.1 = (node1, node2)) with
  | some e => (e.2 : WithTop ℚ)
  | none => ⊤

/-- `Solution._get_distance` from `solution.py`: guarded distance
lookup. The Python function has no `else` branch, so on a route-break
marker it returns `None`; that is embedded as `Option.none`. -/
def sol_get_distance (inst : Instance) (node1 node2 : Node) : Option (WithTop ℚ) :=
  if node1.type ≠ .DZR ∧ node2.type ≠ .DZR then some (inst.get_distance node1 node2)
  else none

/-- First pass of `Solution._reduce_list`: collapse runs of consecutive
dummy zeros to a single one, tracking the `prev_dzr` flag. -/
def collapseDZR : Bool → List Node → List Node
  | _, [] => []
  | prev_dzr, n :: rest =>
    if n.type = .DZR then
      if prev_dzr then collapseDZR true rest
      else n :: collapseDZR true rest
    else n :: collapseDZR false rest

/-- Second pass of `Solution._reduce_list`: the index-based while loop
that pops a dummy zero directly following a depot (staying at the same
index after a pop). -/
def removeDZRAfterDPT : List Node → List Node
  | a :: b :: rest =>
    if a.type = .DPT ∧ b.type = .DZR then removeDZRAfterDPT (a :: rest)
    else a :: removeDZRAfterDPT (b :: rest)
  | l => l
termination_by l => l.length

/-- Dropping trailing elements until the last one is a customer: the
third pass of `Solution._reduce_list`, and also the backward
`last_customer_idx` walk of `Solution._calc_cost_cap_subsequence`. -/
def popTrailingNonCstmr (l : List Node) : List Node :=
  (l.reverse.dropWhile (fun n => n.type ≠ .CSTMR)).reverse

/-- `Solution._reduce_list`. -/
def reduce_list (sequence : List Node) : List Node :=
  if sequence = [] then []
  else popTrailingNonCstmr (removeDZRAfterDPT (collapseDZR false sequence))

/-- The `for i in range(depot_idx, last_customer_idx + 1)` loop of
`Solution._calc_cost_cap_subsequence`, iterated over the nodes of that
index range, threading `previous_node` (`none` models Python's initial
`None`), the running vehicle capacity, the running depot capacity and
the accumulated partial cost. Returns the final cost and depot
capacity; `none` models a Python runtime error (an attribute access on
`None`, or a distance lookup that returned `None`). -/
def ccLoop (inst : Instance) (depot : Depot) :
    List Node → Option Node → ℚ → ℚ → WithTop ℚ → Option (WithTop ℚ × ℚ)
  | [], _, _, depot_capacity, cost => some (cost, depot_capacity)
  | current :: rest, previous, vehicle_capacity, depot_capacity, cost =>
    match current with
    | .cstmr c =>
      match previous with
      | none => none
      | some p =>
        if p.type = .DZR then
          match sol_get_distance inst (.dpt depot) current with
          | none => none
          | some dist => ccLoop inst depot rest (some current)
              (vehicle_capacity - c.demand) (depot_capacity - c.demand)
              (cost + (inst.route_setup_cost : WithTop ℚ) + dist)
        else if p.type = .CSTMR then
          if vehicle_capacity - c.demand < 0 then
            match sol_get_distance inst p (.dpt depot) with
            | none => none
            | some distClose =>
              match sol_get_distance inst (.dpt depot) current with
              | none => none
              | some distOpen => ccLoop inst depot rest (some current)
                  (inst.vehicle_capacity - c.demand) (depot_capacity - c.demand)
                  (cost + distClose + (inst.route_setup_cost : WithTop ℚ) + distOpen)
          else
            match sol_get_distance inst p current with
            | none => none
            | some dist => ccLoop inst depot rest (some current)
                (vehicle_capacity - c.demand) (depot_capacity - c.demand)
                (cost + dist)
        else if p.type = .DPT then
          match sol_get_distance inst (.dpt depot) current with
          | none => none
          | some dist => ccLoop inst depot rest (some current)
              (vehicle_capacity - c.demand) (depot_capacity - c.demand)
              (cost + (inst.route_setup_cost : WithTop ℚ) + dist)
        else ccLoop inst depot rest (some current) vehicle_capacity depot_capacity cost
    | .dzr _ =>
      match previous with
      | none => none
      | some p =>
        match sol_get_distance inst p (.dpt depot) with
        | none => none
        | some dist => ccLoop inst depot rest (some current)
            inst.vehicle_capacity depot_capacity (cost + dist)
    | .dpt _ => ccLoop inst depot rest (some current)
        vehicle_capacity depot_capacity cost

/-- `Solution._calc_cost_cap_subsequence` for one block: `depot` is the
node at `depot_idx`, `tail` the nodes strictly between `depot_idx` and
`last_idx` (the next depot, or the end of the sequence). The backward
`last_customer_idx` walk trims trailing non-customers; a block without
any customer would make that walk escape the block, a runtime error
modelled as `none`. The initial cost is `0.0` plus the depot's opening
cost, the feasibility result is `depot_capacity >= 0`. -/
def calc_cost_cap_subsequence (inst : Instance) (depot : Depot) (tail : List Node) :
    Option (WithTop ℚ × Bool) :=
  let tail' := popTrailingNonCstmr tail
  if tail' = [] then none
  else
    match ccLoop inst depot (Node.dpt depot :: tail') none
        inst.vehicle_capacity depot.capacity ((depot.cost : WithTop ℚ)) with
    | none => none
    | some (cost, depot_capacity) => some (cost, decide (0 ≤ depot_capacity))

/-- The block-identification while loop of `Solution._calculate_cost`,
processing the suffix of the reduced sequence that starts at the current
index. A depot directly followed by a customer opens a block reaching to
the next depot (or the end); partial costs are summed and partial
feasibilities conjoined. Accessing `sequence[idx + 1]` past the end of
the list is an IndexError, modelled as `none`. -/
def segmentLoop (inst : Instance) : List Node → Option (WithTop ℚ × Bool)
  | [] => some (0, true)
  | Node.dpt d :: rest =>
    match rest.head? with
    | none => none
    | some m =>
      if m.type = .CSTMR then
        match calc_cost_cap_subsequence inst d
            (rest.takeWhile (fun x => x.type ≠ .DPT)) with
        | none => none
        | some (c, f) =>
          match segmentLoop inst (rest.dropWhile (fun x => x.type ≠ .DPT)) with
          | none => none
          | some (c2, f2) => some (c + c2, f && f2)
      else segmentLoop inst rest
  | _ :: rest => segmentLoop inst rest
termination_by l => l.length
decreasing_by
  · simp only [List.length_cons]
    exact Nat.lt_succ_of_le ((List.dropWhile_suffix _).sublist.length_le)
  · simp
  · simp

/-- `Solution._calculate_cost`: with the cached validity flag false, the
cost is infinite and feasibility false; otherwise the reduced sequence
is segmented into depot blocks and evaluated. -/
def calc_result (inst : Instance) (is_valid : Bool) (sequence : List Node) :
    Option (WithTop ℚ × Bool) :=
  if is_valid then segmentLoop inst (reduce_list sequence)
  else some (⊤, false)

/-- The mutable attributes of a `Solution` object from `solution.py`,
together with its (shared, immutable) instance. -/
structure Solution where
  inst : Instance
  _sequence : List Node
  _is_valid : Bool
  _cost : WithTop ℚ
  _feasible : Bool
  dummy_zeros : List Node
deriving DecidableEq, Repr

/-- `Solution._create_dummy_zeros`: `ceil(sum of demands / vehicle
capacity)` markers named `Z0`, `Z1`, .... -/
def create_dummy_zeros (inst : Instance) : List Node :=
  let aggregate_demands : ℚ := inst.customers.foldl (fun acc c => acc + c.demand) 0
  let number_dummy_zeros : ℕ := (⌈aggregate_demands / inst.vehicle_capacity⌉).toNat
  (List.range number_dummy_zeros).map (fun i => Node.dzr ⟨"Z" ++ toString i, 0, 0⟩)

/-- `Solution.__init__`: empty sequence, valid, zero cost, feasible,
marker pool freshly created. -/
def Solution.init (inst : Instance) : Solution :=
  { inst := inst
    _sequence := []
    _is_valid := true
    _cost := 0
    _feasible := true
    dummy_zeros := create_dummy_zeros inst }

/-- `Solution.get_quality`: the cached `(cost, feasible)` pair. -/
def Solution.get_quality (s : Solution) : WithTop ℚ × Bool :=
  (s._cost, s._feasible)

/-- The left-to-right scan of `Solution.is_valid_solution`, threading
the `seen_depot` flag; returns false on the first customer encountered
before any depot. -/
def seenScan : Bool → List Node → Bool
  | _, [] => true
  | seen_depot, n :: rest =>
    if n.type = .DPT then seenScan true rest
    else if n.type = .CSTMR ∧ ¬ seen_depot then false
    else seenScan seen_depot rest

/-- `Solution.is_valid_solution`: runs the scan, stores the outcome in
the `_is_valid` attribute and returns it. -/
def Solution.is_valid_solution (s : Solution) : Solution × Bool :=
  let b := seenScan false s._sequence
  ({ s with _is_valid := b }, b)

/-- `Solution.set_solution`: replaces the sequence and recomputes the
cached cost and feasibility (`none` models a runtime error inside the
evaluator). Note that the recomputation reads the *currently cached*
`_is_valid` flag; `set_solution` does not itself rerun the validity
scan. -/
def Solution.set_solution (s : Solution) (sequence : List Node) : Option Solution :=
  match calc_result s.inst s._is_valid sequence with
  | none => none
  | some (c, f) =>
    some { s with _sequence := sequence, _cost := c, _feasible := f }

/-! ## Neighborhood operators (`lsoperator.py`)

The global random stream is embedded by passing the drawn numbers as
explicit natural-number arguments; an argument `r` standing for a draw
from a population of size `n` denotes the choice of position `r % n`. -/

/-- `random.sample(pool, 2)`: two draws at distinct positions of the
pool, `none` when the population has fewer than 2 elements (Python
raises `ValueError` in that case). The first draw picks position
`r1 % n`, the second one of the remaining `n - 1` positions. -/
def sample2 {α : Type} (pool : List α) (r1 r2 : ℕ) : Option (α × α) :=
  if h : 2 ≤ pool.length then
    some (pool.get ⟨r1 % pool.length, Nat.mod_lt _ (by omega)⟩,
      pool.get ⟨(if r1 % pool.length ≤ r2 % (pool.length - 1)
          then r2 % (pool.length - 1) + 1 else r2 % (pool.length - 1)), by
        have h1 : r2 % (pool.length - 1) < pool.length - 1 :=
          Nat.mod_lt _ (by omega)
        split <;> omega⟩)
  else none

/-- `LocalSearchOperator.init_new_solution`: a fresh `Solution` on the
same instance, with an emptied marker pool and a copy of the parent's
sequence. -/
def init_new_solution (solution : Solution) : Solution :=
  { Solution.init solution.inst with
    dummy_zeros := []
    _sequence := solution._sequence }

/-- `LocalSearchOperator.get_old_solution`: the parent together with its
cached feasibility flag. -/
def get_old_solution (solution : Solution) : Solution × Bool :=
  (solution, solution.get_quality.2)

/-- The candidate pool of `InsertOperator.apply`: every position whose
node is not a route-break marker, with its index. -/
def insert_candidates (sequence : List Node) : List (Node × ℕ) :=
  sequence.enum.filterMap (fun p =>
    if p.2.type ≠ .DZR then some (p.2, p.1) else none)

/-- What an operator decided to do before handing a sequence to
`set_solution`: starve (return the unmodified parent), raise a runtime
error, or produce an edited sequence. -/
inductive OpOutcome where
  | starve
  | err
  | edit (seq : List Node)
deriving DecidableEq, Repr

/-- The selection-and-edit phase of `InsertOperator.apply`, computed on
the (copied) parent sequence: with fewer than 2 candidates the operator
starves; otherwise one sampled node is removed and reinserted at the
other sampled node's index-adjusted position. -/
def insert_edit (sequence : List Node) (r1 r2 : ℕ) : OpOutcome :=
  let cands := insert_candidates sequence
  if cands.length < 2 then .starve
  else
    match sample2 cands r1 r2 with
    | none => .err
    | some ((node1, index1), (_node2, index2)) =>
      .edit ((sequence.eraseIdx index1).insertIdx
        (if index1 < index2 then index2 - 1 else index2) node1)

/-- The weighted pool of `SwapOperator.apply`:
`swap_candidates_dpt + swap_candidates_cstmr * 2` (customers and
route-break markers listed twice). -/
def swap_pool (sequence : List Node) : List (Node × ℕ) :=
  let swap_candidates_cstmr := sequence.enum.filterMap (fun p =>
    if p.2.type = .CSTMR ∨ p.2.type = .DZR then some (p.2, p.1) else none)
  let swap_candidates_dpt := sequence.enum.filterMap (fun p =>
    if p.2.type = .DPT then some (p.2, p.1) else none)
  swap_candidates_dpt ++ (swap_candidates_cstmr ++ swap_candidates_cstmr)

/-- The selection-and-edit phase of `SwapOperator.apply`: samples 2
entries of the weighted pool with *no* starvation guard (a pool with
fewer than 2 entries makes `random.sample` raise) and exchanges the two
sampled positions. -/
def swap_edit (sequence : List Node) (r1 r2 : ℕ) : OpOutcome :=
  match sample2 (swap_pool sequence) r1 r2 with
  | none => .err
  | some ((node1, index1), (node2, index2)) =>
    .edit ((sequence.set index1 node2).set index2 node1)

/-- The inner `for j in range(i + 1, len(sequence))` scan of
`TwoOptOperator.apply`: starting just after a depot, collect following
customers with their indices until the next depot *or the last position
of the sequence* is reached (the node at that last position is tested
before it could be counted, so it is never collected); the second
component is the candidate test `count_customer >= 2` evaluated at the
break, and `false` if the loop body never runs. -/
def twoOptScan (sequence : List Node) (j : ℕ) (acc : List (Node × ℕ)) :
    List (Node × ℕ) × Bool :=
  if h : j < sequence.length then
    let following := sequence.get ⟨j, h⟩
    if following.type = .DPT ∨ j = sequence.length - 1 then (acc, decide (2 ≤ acc.length))
    else if following.type = .CSTMR then twoOptScan sequence (j + 1) (acc ++ [(following, j)])
    else twoOptScan sequence (j + 1) acc
  else (acc, false)
termination_by sequence.length - j

/-- The `candidate_depots` list built by the outer loop of
`TwoOptOperator.apply`: the depots (with their positions) whose scan
reported at least 2 collected customers, in sequence order. -/
def candidate_depots (sequence : List Node) : List (Node × ℕ) :=
  sequence.enum.filterMap (fun p =>
    if p.2.type = .DPT ∧ (twoOptScan sequence (p.1 + 1) []).2 then some (p.2, p.1) else none)

/-- The `customers_of_depot` dictionary of `TwoOptOperator.apply`,
keyed by the depot node: Python dictionary writes let the *last* equal
depot occurrence win. A missing key would be a Python `KeyError`; the
operator only ever looks up depots present in the sequence, so the `[]`
default is unreachable there. -/
def customers_of_depot (sequence : List Node) (depot : Node) : List (Node × ℕ) :=
  match (sequence.enum.filter (fun p => p.2 = depot ∧ p.2.type = .DPT)).getLast? with
  | some p => (twoOptScan sequence (p.1 + 1) []).1
  | none => []

/-- The slice assignment
`sequence[start_idx + 1:end_idx] = reversed(sequence[start_idx + 1:end_idx])`:
the subsequence strictly between the two chosen positions is reversed,
the boundaries stay in place. -/
def twoOptEdit (sequence : List Node) (start_idx end_idx : ℕ) : List Node :=
  sequence.take (start_idx + 1)
    ++ ((sequence.drop (start_idx + 1)).take (end_idx - (start_idx + 1))).reverse
    ++ sequence.drop end_idx

/-- The selection-and-edit phase of `TwoOptOperator.apply`: no candidate
depot (or a selected depot with fewer than 2 recorded customers) makes
the operator starve; otherwise 2 of the depot's recorded customers are
sampled, ordered by position, and the span strictly between them
reversed. -/
def twoopt_edit (sequence : List Node) (rD r1 r2 : ℕ) : OpOutcome :=
  let cands := candidate_depots sequence
  if h : cands.length = 0 then .starve
  else
    let selected := (cands.get ⟨rD % cands.length, Nat.mod_lt _ (by omega)⟩).1
    let customers := customers_of_depot sequence selected
    if customers.length < 2 then .starve
    else
      match sample2 customers r1 r2 with
      | none => .err
      | some (cA, cB) =>
        let sorted := if cA.2 ≤ cB.2 then (cA, cB) else (cB, cA)
        .edit (twoOptEdit sequence sorted.1.2 sorted.2.2)

/-- The part of `apply` common to the three operators: build the fresh
solution from a copy of the parent's sequence, hand the edited sequence
to `set_solution`, read the new quality, and run `is_valid_solution`; an
invalid or starved outcome returns the parent with its cached
feasibility (`get_old_solution`), a raise is `none`. -/
def apply_outcome (solution : Solution) (out : OpOutcome) : Option (Solution × Bool) :=
  match out with
  | .starve => some (get_old_solution solution)
  | .err => none
  | .edit seq1 =>
    let new0 := init_new_solution solution
    match new0.set_solution seq1 with
    | none => none
    | some ns =>
      if ns.is_valid_solution.2 then some (ns.is_valid_solution.1, ns.get_quality.2)
      else some (get_old_solution solution)

/-- `InsertOperator.apply` (the copied sequence of the fresh solution is
definitionally the parent's sequence). -/
def insert_apply (solution : Solution) (r1 r2 : ℕ) : Option (Solution × Bool) :=
  apply_outcome solution (insert_edit solution._sequence r1 r2)

/-- `SwapOperator.apply`. -/
def swap_apply (solution : Solution) (r1 r2 : ℕ) : Option (Solution × Bool) :=
  apply_outcome solution (swap_edit solution._sequence r1 r2)

/-- `TwoOptOperator.apply`. -/
def twoopt_apply (solution : Solution) (rD r1 r2 : ℕ) : Option (Solution × Bool) :=
  apply_outcome solution (twoopt_edit solution._sequence rD r1 r2)

/-! ## The object store

Python objects are mutable and aliased through references; to state that
an operator never writes to its parent solution, the heap is made
explicit: a store maps allocation indices to `Solution` attribute
records, and each Python attribute write becomes a store write at the
written object's index. -/

/-- The explicit heap of `Solution` objects. Indices below `next` are
allocated. -/
structure Store where
  mem : ℕ → Solution
  next : ℕ

/-- Allocate a fresh object. -/
def Store.alloc (st : Store) (s : Solution) : Store × ℕ :=
  ({ mem := Function.update st.mem st.next s, next := st.next + 1 }, st.next)

/-- Overwrite the attributes of object `r`. -/
def Store.write (st : Store) (r : ℕ) (s : Solution) : Store :=
  { st with mem := Function.update st.mem r s }

/-- `LocalSearchOperator.init_new_solution` on the store: allocates the
fresh solution built from a copy of the parent's sequence. -/
def init_new_solution_st (st : Store) (p : ℕ) : Store × ℕ :=
  st.alloc (init_new_solution (st.mem p))

/-- The store-level rendering of `apply_outcome`: every attribute write
(`set_solution` storing the sequence, cost and feasibility;
`is_valid_solution` storing the validity flag) lands at the freshly
allocated index; the parent index `p` is only ever read. The second
component is the returned `(solution reference, feasible)` pair, `none`
when the Python call raises. -/
def apply_outcome_st (st : Store) (p : ℕ) (out : OpOutcome) :
    Store × Option (ℕ × Bool) :=
  let (st1, nref) := init_new_solution_st st p
  match out with
  | .starve => (st1, some (p, (st1.mem p).get_quality.2))
  | .err => (st1, none)
  | .edit seq1 =>
    match (st1.mem nref).set_solution seq1 with
    | none => (st1, none)
    | some ns =>
      let st2 := st1.write nref ns
      let st3 := st2.write nref ns.is_valid_solution.1
      if ns.is_valid_solution.2 then (st3, some (nref, ns.get_quality.2))
      else (st3, some (p, (st3.mem p).get_quality.2))

/-- `InsertOperator.apply` on the store. -/
def insert_apply_st (st : Store) (p : ℕ) (r1 r2 : ℕ) : Store × Option (ℕ × Bool) :=
  apply_outcome_st st p (insert_edit (st.mem p)._sequence r1 r2)

/-- `SwapOperator.apply` on the store. -/
def swap_apply_st (st : Store) (p : ℕ) (r1 r2 : ℕ) : Store × Option (ℕ × Bool) :=
  apply_outcome_st st p (swap_edit (st.mem p)._sequence r1 r2)

/-- `TwoOptOperator.apply` on the store. -/
def twoopt_apply_st (st : Store) (p : ℕ) (rD r1 r2 : ℕ) : Store × Option (ℕ × Bool) :=
  apply_outcome_st st p (twoopt_edit (st.mem p)._sequence rD r1 r2)

/-! ## The simulated annealing driver (`clrpsasolver.py`)

`CLRPSASolver.solve` drives `HRSTCSolution` objects (a module that is
not among the sources) exclusively through `get_quality` and the
operators' `apply`; the loop is embedded as a step function on the
driver's control state (iteration counter, non-improvement counter,
temperature, the qualities of the current and best solutions, and a
`done` flag for the returns). The stochastic data of one micro-iteration
— the candidate solution's quality, the outcome of the Metropolis draw
`random_r < exp(-delta / (K*T))`, and the qualities/flags produced by
the two intensification operators — are supplied as explicit oracle
inputs. -/

/-- `SimulatedAnnealingParameters` from `saparameters.py`. -/
structure SimulatedAnnealingParameters where
  a : ℚ
  Iiter : ℕ
  P : ℚ
  K : ℚ
  T0 : ℚ
  TF : ℚ
  Nnon_improving : ℕ
deriving DecidableEq, Repr

/-- The parameter values hard-coded in `CLRPSASolver.__init__`. -/
def default_sa_parameters : SimulatedAnnealingParameters :=
  { a := 49/50, Iiter := 5000, P := 400, K := 1/9, T0 := 30, TF := 1/10,
    Nnon_improving := 100 }

/-- The per-temperature iteration threshold
`I = Iiter * len(instance.nodes)` computed in `solve`. -/
def per_temp_iters (prm : SimulatedAnnealingParameters) (inst : Instance) : ℕ :=
  prm.Iiter * inst.nodes.length

/-- The oracle data consumed by one micro-iteration of `solve`. -/
structure SAStepInput where
  cand : WithTop ℚ × Bool
  acceptWorse : Bool
  ls1 : (WithTop ℚ × Bool) × Bool
  ls2 : (WithTop ℚ × Bool) × Bool

/-- The driver's control state. `current` and `best` are the
`get_quality` pairs of the two tracked solutions; `done` records that
one of the two `return best_solution` points was reached. -/
structure SAState where
  i_count : ℕ
  n_count : ℕ
  current_temp : ℚ
  current : WithTop ℚ × Bool
  best : WithTop ℚ × Bool
  done : Bool

/-- `cost += P if not feasible`: the penalized cost of a quality pair. -/
def penalized (P : ℚ) (q : WithTop ℚ × Bool) : WithTop ℚ :=
  if q.2 then q.1 else q.1 + (P : WithTop ℚ)

/-- One micro-iteration of the `while current_temp > TF` loop of
`CLRPSASolver.solve` (a frozen no-op once a return was taken):
acceptance test, best update, and — when the iteration counter reaches
the threshold `I` — counter reset, cooling by the factor `a`, the
two-operator intensification pass on the best solution, and the
`current_temp <= TF or n_count >= N` return test. -/
def saStep (prm : SimulatedAnnealingParameters) (I : ℕ)
    (st : SAState) (inp : SAStepInput) : SAState :=
  if st.done then st
  else if ¬ (prm.TF < st.current_temp) then { st with done := true }
  else
    let i1 := st.i_count + 1
    let currP := penalized prm.P st.current
    let candP := penalized prm.P inp.cand
    let accept := (candP ≤ currP) || inp.acceptWorse
    let current1 := if accept then inp.cand else st.current
    let currP1 := if accept then candP else currP
    let bn := if currP1 < st.best.1 ∧ current1.2 then (current1, 0) else (st.best, st.n_count)
    if i1 = I then
      let temp1 := prm.a * st.current_temp
      let n2 := bn.2 + 1
      let q2 := inp.ls2.1
      let best2 := if inp.ls2.2 ∧ q2.1 < bn.1.1 then q2 else bn.1
      { i_count := 0, n_count := n2, current_temp := temp1, current := q2,
        best := best2,
        done := decide (temp1 ≤ prm.TF ∨ prm.Nnon_improving ≤ n2) }
    else
      { i_count := i1, n_count := bn.2, current_temp := st.current_temp,
        current := current1, best := bn.1,
        done := decide (st.current_temp ≤ prm.TF ∨ prm.Nnon_improving ≤ bn.2) }

/-- Folding `saStep` over a list of micro-iteration inputs. -/
def saRun (prm : SimulatedAnnealingParameters) (I : ℕ)
    (st : SAState) (inps : List SAStepInput) : SAState :=
  inps.foldl (saStep prm I) st

/-! ## A concrete test instance

The 2-depot, 4-customer instance of the end-to-end scenario: every
customer demands 10, the vehicle capacity 20 equals the sum of any two
demands, and each depot capacity 40 covers the total demand. -/

def D1 : Depot := ⟨"D1", 0, 0, 100, 40, 7⟩

def D2 : Depot := ⟨"D2", 10, 10, 100, 40, 7⟩

def C1 : Customer := ⟨"C1", 3, 4, 10⟩

def C2 : Customer := ⟨"C2", 3, 8, 10⟩

def C3 : Customer := ⟨"C3", 0, 5, 10⟩

def C4 : Customer := ⟨"C4", 8, 0, 10⟩

def inst1 : Instance := ⟨"I1", [D1, D2], [C1, C2, C3, C4], 20, 7⟩

def Z0 : Node := Node.dzr ⟨"Z0", 0, 0⟩

/-- The hand-built scenario sequence `[D1, C1, C2, Break, C3, C4, D2]`. -/
def scenarioSeq : List Node :=
  [Node.dpt D1, Node.cstmr C1, Node.cstmr C2, Z0,
   Node.cstmr C3, Node.cstmr C4, Node.dpt D2]

/-- A sequence violating the seen-depot rule: customer `C1` precedes the
first depot. -/
def invalidSeq : List Node :=
  [Node.cstmr C1, Node.dpt D1, Node.cstmr C2, Z0, Node.cstmr C3, Node.cstmr C4]

/-- A solution whose sequence holds a single depot: 1 insert candidate,
1 swap-pool entry, no 2-opt candidate depot. -/
def solD1 : Solution :=
  { Solution.init inst1 with _sequence := [Node.dpt D1] }

/-- A depot block `[D1, C1, C2]` whose 2 customers reach the end of the
sequence. -/
def seqD1C1C2 : List Node :=
  [Node.dpt D1, Node.cstmr C1, Node.cstmr C2]

/-- A depot block with 2 customers strictly before the final sequence
position. -/
def seqD1C1C2C3 : List Node :=
  [Node.dpt D1, Node.cstmr C1, Node.cstmr C2, Node.cstmr C3]

/-- A one-object store holding a freshly initialised solution. -/
def st0 : Store :=
  { mem := fun _ => Solution.init inst1, next := 1 }

/-! ## Spec-side predicates

These definitions follow the wording of the specification (not the
code); they are used to state refutations of, and corrected versions of,
the spec's claims about the code. -/

/-- No two consecutive route-break markers. -/
def noConsecutiveDZR (a b : Node) : Prop :=
  ¬(a.type = .DZR ∧ b.type = .DZR)

/-- No route-break marker directly following a depot. -/
def noDZRAfterDPT (a b : Node) : Prop :=
  ¬(a.type = .DPT ∧ b.type = .DZR)

/-- The node preceding a route-break marker is a customer. -/
def markerPrecededByCustomer (a b : Node) : Prop :=
  b.type = .DZR → a.type = .CSTMR

/-- The sequence is empty or ends on a customer. -/
def EndsOnCustomer (l : List Node) : Prop :=
  l = [] ∨ ∃ x, l.getLast? = some x ∧ x.type = .CSTMR

/-- Modelled from the spec: the customers of the depot block rooted at
position `i` — the customers immediately following position `i`,
scanning up to the next depot or the end of the sequence. -/
def spec_block_customers (sequence : List Node) (i : ℕ) : List Node :=
  ((sequence.drop (i + 1)).takeWhile (fun x => x.type ≠ .DPT)).filter
    (fun x => x.type = .CSTMR)

/-- The customers the 2-opt scan actually counts for the depot at
position `i`: the block customers of the sequence with its final
element removed (the scan breaks at the last position before testing
the node there). -/
def counted_customers (sequence : List Node) (i : ℕ) : List Node :=
  spec_block_customers (sequence.take (sequence.length - 1)) i

/-- The suffix of the counted-customer computation starting at scan
position `j` (so that `counted_customers sequence i` is definitionally
`specFrom sequence (i + 1)`). -/
def specFrom (sequence : List Node) (j : ℕ) : List Node :=
  (((sequence.take (sequence.length - 1)).drop j).takeWhile
      (fun x => x.type ≠ .DPT)).filter (fun x => x.type = .CSTMR)

/-- Small driver parameters for concrete runs: cooling rate 1/2, one
iteration per node. -/
def prmW : SimulatedAnnealingParameters :=
  { a := 1/2, Iiter := 1, P := 400, K := 1/9, T0 := 1, TF := 0, Nnon_improving := 5 }

def stW : SAState :=
  { i_count := 0, n_count := 0, current_temp := 1,
    current := ((0 : WithTop ℚ), true), best := ((0 : WithTop ℚ), true), done := false }

def inpW : SAStepInput :=
  { cand := ((0 : WithTop ℚ), true), acceptWorse := false,
    ls1 := (((0 : WithTop ℚ), true), true), ls2 := (((0 : WithTop ℚ), true), true) }


/-- After the first reduction pass no two consecutive markers remain;
with the `prev_dzr` flag set the result moreover starts with a
non-marker. -/
theorem collapseDZR_head (l : List Node) :
    ∀ x ∈ (collapseDZR true l).head?, x.type ≠ .DZR := by
  induction l with
  | nil => simp [collapseDZR]
  | cons n rest ih =>
    by_cases hn : n.type = .DZR
    · simpa [collapseDZR, hn] using ih
    · simpa [collapseDZR, hn] using hn

theorem collapseDZR_chain (l : List Node) :
    ∀ prev, List.Chain' noConsecutiveDZR (collapseDZR prev l) := by
  induction l with
  | nil => intro prev; simp [collapseDZR]
  | cons n rest ih =>
    intro prev
    by_cases hn : n.type = .DZR
    · cases prev with
      | true => simpa [collapseDZR, hn] using ih true
      | false =>
        simp only [collapseDZR, hn, if_true, Bool.false_eq_true, if_false]
        exact (ih true).cons' (fun y hy => fun hc => (collapseDZR_head rest y hy) hc.2)
    · simp only [collapseDZR, hn, if_false]
      exact (ih false).cons' (fun y hy => fun hc => hn hc.1)


theorem removeDZRAfterDPT_head (l : List Node) :
    (removeDZRAfterDPT l).head? = l.head? := by
  induction l using removeDZRAfterDPT.induct with
  | case1 a b rest h ih => simpa [removeDZRAfterDPT, h] using ih
  | case2 a b rest h ih => simp [removeDZRAfterDPT, h]
  | case3 l h =>
    cases l with
    | nil => simp [removeDZRAfterDPT]
    | cons a t =>
      cases t with
      | nil => simp [removeDZRAfterDPT]
      | cons b rest => exact (h a b rest rfl).elim


theorem removeDZRAfterDPT_noCC : ∀ l, List.Chain' noConsecutiveDZR l →
    List.Chain' noConsecutiveDZR (removeDZRAfterDPT l) := by
  intro l
  induction l using removeDZRAfterDPT.induct with
  | case1 a b rest h ih =>
    intro hl
    rw [show removeDZRAfterDPT (a :: b :: rest) = removeDZRAfterDPT (a :: rest) from by
      simp [removeDZRAfterDPT, h]]
    exact ih (hl.tail.tail.cons' (fun y hy hc => nomatch h.1.symm.trans hc.1))
  | case2 a b rest h ih =>
    intro hl
    rw [show removeDZRAfterDPT (a :: b :: rest) = a :: removeDZRAfterDPT (b :: rest) from by
      simp [removeDZRAfterDPT, h]]
    refine (ih hl.tail).cons' ?_
    intro y hy
    rw [removeDZRAfterDPT_head] at hy
    simp only [List.head?_cons, Option.mem_def, Option.some_inj] at hy
    subst hy
    exact hl.rel_head
  | case3 l h =>
    intro hl
    cases l with
    | nil => simpa [removeDZRAfterDPT] using hl
    | cons a t =>
      cases t with
      | nil => simpa [removeDZRAfterDPT] using hl
      | cons b rest => exact (h a b rest rfl).elim

theorem removeDZRAfterDPT_noDZ : ∀ l, List.Chain' noConsecutiveDZR l →
    List.Chain' noDZRAfterDPT (removeDZRAfterDPT l) := by
  intro l
  induction l using removeDZRAfterDPT.induct with
  | case1 a b rest h ih =>
    intro hl
    rw [show removeDZRAfterDPT (a :: b :: rest) = removeDZRAfterDPT (a :: rest) from by
      simp [removeDZRAfterDPT, h]]
    exact ih (hl.tail.tail.cons' (fun y hy hc => nomatch h.1.symm.trans hc.1))
  | case2 a b rest h ih =>
    intro hl
    rw [show removeDZRAfterDPT (a :: b :: rest) = a :: removeDZRAfterDPT (b :: rest) from by
      simp [removeDZRAfterDPT, h]]
    refine (ih hl.tail).cons' ?_
    intro y hy
    rw [removeDZRAfterDPT_head] at hy
    simp only [List.head?_cons, Option.mem_def, Option.some_inj] at hy
    subst hy
    exact h
  | case3 l h =>
    intro hl
    cases l with
    | nil => simp [removeDZRAfterDPT]
    | cons a t =>
      cases t with
      | nil => simp [removeDZRAfterDPT]
      | cons b rest => exact (h a b rest rfl).elim

theorem collapseDZR_id : ∀ (l : List Node) (prev : Bool),
    List.Chain' noConsecutiveDZR l →
    (prev = true → ∀ x ∈ l.head?, x.type ≠ .DZR) → collapseDZR prev l = l := by
  intro l
  induction l with
  | nil => intro prev _ _; simp [collapseDZR]
  | cons n rest ih =>
    intro prev hl hp
    by_cases hn : n.type = .DZR
    · cases prev with
      | true => exact absurd hn (hp rfl n (by simp))
      | false =>
        simp only [collapseDZR, hn, if_true, Bool.false_eq_true, if_false, List.cons.injEq,
          true_and]
        exact ih true hl.tail (fun _ x hx hxd => (hl.rel_head? hx) ⟨hn, hxd⟩)
    · simp only [collapseDZR, hn, if_false, List.cons.injEq, true_and]
      exact ih false hl.tail (fun habs => nomatch habs)

theorem removeDZRAfterDPT_id : ∀ l, List.Chain' noDZRAfterDPT l →
    removeDZRAfterDPT l = l := by
  intro l
  induction l using removeDZRAfterDPT.induct with
  | case1 a b rest h ih => intro hl; exact (hl.rel_head h).elim
  | case2 a b rest h ih =>
    intro hl
    rw [show removeDZRAfterDPT (a :: b :: rest) = a :: removeDZRAfterDPT (b :: rest) from by
      simp [removeDZRAfterDPT, h]]
    rw [ih hl.tail]
  | case3 l h =>
    intro hl
    cases l with
    | nil => simp [removeDZRAfterDPT]
    | cons a t =>
      cases t with
      | nil => simp [removeDZRAfterDPT]
      | cons b rest => exact (h a b rest rfl).elim

theorem popTrailingNonCstmr_id : ∀ l, EndsOnCustomer l → popTrailingNonCstmr l = l := by
  intro l hl
  cases hl with
  | inl h => subst h; simp [popTrailingNonCstmr]
  | inr h =>
    obtain ⟨x, hx, hxt⟩ := h
    unfold popTrailingNonCstmr
    cases hrev : l.reverse with
    | nil =>
      have h0 : l = [] := by simpa using congrArg List.reverse hrev
      subst h0; simp
    | cons y t =>
      have hy : y = x := by
        have h1 := List.head?_reverse l
        rw [hrev, hx] at h1
        simpa using h1
      subst hy
      rw [List.dropWhile_cons_of_neg (by simp [hxt]), ← hrev, List.reverse_reverse]

theorem chain'_pre {α : Type} {R : α → α → Prop} {l1 l2 : List α} (h : l1 <+: l2)
    (hc : List.Chain' R l2) : List.Chain' R l1 := by
  obtain ⟨t, rfl⟩ := h
  simpa [List.take_left] using hc.take l1.length

theorem takeWhile_pre {α : Type} (p : α → Bool) (l : List α) : l.takeWhile p <+: l :=
  ⟨l.dropWhile p, List.takeWhile_append_dropWhile p l⟩

theorem popTrailingNonCstmr_front (l : List Node) : popTrailingNonCstmr l <+: l := by
  unfold popTrailingNonCstmr
  obtain ⟨t, ht⟩ := List.dropWhile_suffix (l := l.reverse) (fun n => decide (n.type ≠ .CSTMR))
  exact ⟨t.reverse, by rw [← List.reverse_append, ht, List.reverse_reverse]⟩

theorem popTrailingNonCstmr_ends (l : List Node) :
    EndsOnCustomer (popTrailingNonCstmr l) := by
  by_cases h : popTrailingNonCstmr l = []
  · exact Or.inl h
  · refine Or.inr ?_
    unfold popTrailingNonCstmr at h ⊢
    rw [List.getLast?_reverse]
    have hne : l.reverse.dropWhile (fun n => n.type ≠ .CSTMR) ≠ [] := by
      intro hc; exact h (by rw [hc]; rfl)
    obtain ⟨y, t, hyt⟩ := List.exists_cons_of_ne_nil hne
    refine ⟨y, by rw [hyt]; rfl, ?_⟩
    have h3 := List.head_dropWhile_not (fun n => decide (n.type ≠ .CSTMR)) l.reverse hne
    rw [show (List.dropWhile (fun n => decide (n.type ≠ NodeType.CSTMR)) l.reverse).head hne
        = y from by rw [List.head_eq_iff_head?_eq_some]; rw [hyt]; rfl] at h3
    simpa using h3


theorem reduce_list_noCC (seq : List Node) :
    List.Chain' noConsecutiveDZR (reduce_list seq) := by
  unfold reduce_list
  split
  · simp
  · exact chain'_pre (popTrailingNonCstmr_front _)
      (removeDZRAfterDPT_noCC _ (collapseDZR_chain seq false))

theorem reduce_list_noDZ (seq : List Node) :
    List.Chain' noDZRAfterDPT (reduce_list seq) := by
  unfold reduce_list
  split
  · simp
  · exact chain'_pre (popTrailingNonCstmr_front _)
      (removeDZRAfterDPT_noDZ _ (collapseDZR_chain seq false))

theorem reduce_list_ends (seq : List Node) : EndsOnCustomer (reduce_list seq) := by
  unfold reduce_list
  split
  · exact Or.inl rfl
  · exact popTrailingNonCstmr_ends _

theorem reduce_list_idem (seq : List Node) :
    reduce_list (reduce_list seq) = reduce_list seq := by
  have hcc := reduce_list_noCC seq
  have hdz := reduce_list_noDZ seq
  have hend := reduce_list_ends seq
  by_cases h : reduce_list seq = []
  · rw [h]; rfl
  · generalize hgen : reduce_list seq = r at *
    unfold reduce_list
    rw [if_neg h, collapseDZR_id _ false hcc (fun habs => nomatch habs),
      removeDZRAfterDPT_id _ hdz, popTrailingNonCstmr_id _ hend]


theorem chain'_and {α : Type} {R S : α → α → Prop} :
    ∀ {l : List α}, List.Chain' R l → List.Chain' S l →
      List.Chain' (fun a b => R a b ∧ S a b) l
  | [], _, _ => List.chain'_nil
  | [_], _, _ => List.chain'_singleton _
  | _ :: _ :: _, hR, hS => by
    rw [List.chain'_cons] at *
    exact ⟨⟨hR.1, hS.1⟩, chain'_and hR.2 hS.2⟩

theorem reduce_list_good (seq : List Node) :
    List.Chain' markerPrecededByCustomer (reduce_list seq) := by
  refine (chain'_and (reduce_list_noCC seq) (reduce_list_noDZ seq)).imp ?_
  rintro a b ⟨h1, h2⟩ hb
  cases a with
  | dpt d => exact absurd ⟨rfl, hb⟩ h2
  | cstmr c => rfl
  | dzr z => exact absurd ⟨rfl, hb⟩ h1

theorem sol_get_distance_some (inst : Instance) {a b : Node}
    (h1 : a.type ≠ .DZR) (h2 : b.type ≠ .DZR) :
    sol_get_distance inst a b = some (inst.get_distance a b) := by
  simp [sol_get_distance, h1, h2]

theorem ccLoop_isSome (inst : Instance) (d : Depot) :
    ∀ (M : List Node) (p : Node) (v dc : ℚ) (cost : WithTop ℚ),
      List.Chain' markerPrecededByCustomer (p :: M) →
      (ccLoop inst d M (some p) v dc cost).isSome := by
  intro M
  induction M with
  | nil => intros; simp [ccLoop]
  | cons cur rest ih =>
    intro p v dc cost hch
    have hch' : List.Chain' markerPrecededByCustomer (cur :: rest) := hch.tail
    cases cur with
    | dpt d2 =>
      simp only [ccLoop]
      exact ih _ _ _ _ hch'
    | dzr z =>
      have hp : p.type = .CSTMR := hch.rel_head rfl
      simp only [ccLoop]
      rw [sol_get_distance_some inst (by simp [hp]) (by simp [Node.type])]
      exact ih _ _ _ _ hch'
    | cstmr c =>
      simp only [ccLoop]
      by_cases hp1 : p.type = .DZR
      · simp only [hp1, if_true]
        rw [sol_get_distance_some inst (by simp [Node.type]) (by simp [Node.type])]
        exact ih _ _ _ _ hch'
      · simp only [hp1, if_false]
        by_cases hp2 : p.type = .CSTMR
        · simp only [hp2, if_true]
          by_cases hv : v - c.demand < 0
          · simp only [hv, if_true]
            rw [sol_get_distance_some inst (by simp [hp2]) (by simp [Node.type]),
              sol_get_distance_some inst (by simp [Node.type]) (by simp [Node.type])]
            exact ih _ _ _ _ hch'
          · simp only [hv, if_false]
            rw [sol_get_distance_some inst (by simp [hp2]) (by simp [Node.type])]
            exact ih _ _ _ _ hch'
        · simp only [hp2, if_false]
          by_cases hp3 : p.type = .DPT
          · simp only [hp3, if_true]
            rw [sol_get_distance_some inst (by simp [Node.type]) (by simp [Node.type])]
            exact ih _ _ _ _ hch'
          · simp only [hp3, if_false]
            exact ih _ _ _ _ hch'


theorem getLast?_of_suffix {α : Type} {l1 l2 : List α} (h : l1 <:+ l2)
    (hne : l1 ≠ []) : l2.getLast? = l1.getLast? := by
  obtain ⟨pre, rfl⟩ := h
  obtain ⟨y, hy⟩ := Option.isSome_iff_exists.mp (List.getLast?_isSome.mpr hne)
  rw [List.getLast?_append, hy]
  rfl

theorem calc_cost_cap_subsequence_isSome (inst : Instance) (d : Depot)
    (tail : List Node)
    (hch : List.Chain' markerPrecededByCustomer (Node.dpt d :: tail))
    (m : Node) (t : List Node) (htail : tail = m :: t) (hm : m.type = .CSTMR) :
    (calc_cost_cap_subsequence inst d tail).isSome := by
  unfold calc_cost_cap_subsequence
  have hne : popTrailingNonCstmr tail ≠ [] := by
    intro hc
    unfold popTrailingNonCstmr at hc
    have h2 : tail.reverse.dropWhile (fun n => n.type ≠ .CSTMR) = [] := by
      have := congrArg List.reverse hc
      simpa using this
    rw [List.dropWhile_eq_nil_iff] at h2
    have hmem : m ∈ tail.reverse := by simp [htail]
    have := h2 m hmem
    simp [hm] at this
  rw [if_neg hne]
  have hpre : (Node.dpt d :: popTrailingNonCstmr tail) <+: (Node.dpt d :: tail) := by
    obtain ⟨t2, ht2⟩ := popTrailingNonCstmr_front tail
    exact ⟨t2, by rw [List.cons_append, ht2]⟩
  have hch2 : List.Chain' markerPrecededByCustomer
      (Node.dpt d :: popTrailingNonCstmr tail) := chain'_pre hpre hch
  have hcc : (ccLoop inst d (Node.dpt d :: popTrailingNonCstmr tail) none
      inst.vehicle_capacity d.capacity ((d.cost : WithTop ℚ))).isSome := by
    rw [show ccLoop inst d (Node.dpt d :: popTrailingNonCstmr tail) none
        inst.vehicle_capacity d.capacity ((d.cost : WithTop ℚ))
        = ccLoop inst d (popTrailingNonCstmr tail) (some (Node.dpt d))
          inst.vehicle_capacity d.capacity ((d.cost : WithTop ℚ)) from rfl]
    exact ccLoop_isSome inst d _ _ _ _ _ hch2
  obtain ⟨⟨c, dcap⟩, heq⟩ := Option.isSome_iff_exists.mp hcc
  rw [heq]
  rfl

theorem EndsOnCustomer_of_cons {n : Node} {rest : List Node} (hne : rest ≠ [])
    (h : EndsOnCustomer (n :: rest)) : EndsOnCustomer rest := by
  rcases h with h | ⟨x, hx, hxt⟩
  · simp at h
  · refine Or.inr ⟨x, ?_, hxt⟩
    cases rest with
    | nil => exact absurd rfl hne
    | cons b l => rw [← List.getLast?_cons_cons (a := n)]; exact hx

theorem chain_block_front {d : Depot} {rest : List Node}
    (hch : List.Chain' markerPrecededByCustomer (Node.dpt d :: rest)) :
    List.Chain' markerPrecededByCustomer
      (Node.dpt d :: rest.takeWhile (fun x => x.type ≠ .DPT)) := by
  refine chain'_pre ?_ hch
  obtain ⟨t2, ht2⟩ := takeWhile_pre (fun x => decide (x.type ≠ NodeType.DPT)) rest
  exact ⟨t2, by rw [List.cons_append, ht2]⟩

theorem takeWhile_head_cstmr {m : Node} {t : List Node} (hm : m.type = .CSTMR) :
    (m :: t).takeWhile (fun x => x.type ≠ .DPT)
      = m :: t.takeWhile (fun x => x.type ≠ .DPT) :=
  List.takeWhile_cons_of_pos (by rw [hm]; simp)

theorem segmentLoop_isSome (inst : Instance) : ∀ (l : List Node),
    List.Chain' markerPrecededByCustomer l → EndsOnCustomer l →
    (segmentLoop inst l).isSome := by
  intro l
  induction l using segmentLoop.induct inst with
  | case1 => intros; simp [segmentLoop]
  | case2 d rest hhead =>
    intro hch hend
    have hrest : rest = [] := List.head?_eq_none_iff.mp hhead
    subst hrest
    rcases hend with h | ⟨x, hx, hxt⟩
    · exact absurd h (by simp)
    · simp only [List.getLast?_singleton, Option.some_inj] at hx
      subst hx
      simp [Node.type] at hxt
  | case3 d rest p hhead hp hcalc =>
    intro hch hend
    obtain ⟨t, ht⟩ : ∃ t, rest = p :: t := by
      cases rest with
      | nil => exact absurd hhead (by simp)
      | cons a t =>
        simp only [List.head?_cons, Option.some_inj] at hhead
        exact ⟨t, by rw [hhead]⟩
    have hblock := calc_cost_cap_subsequence_isSome inst d
      (rest.takeWhile (fun x => x.type ≠ .DPT)) (chain_block_front hch)
      p (t.takeWhile (fun x => x.type ≠ .DPT))
      (by rw [ht, takeWhile_head_cstmr hp]) hp
    rw [hcalc] at hblock
    exact absurd hblock (by simp)
  | case4 d rest p hhead hp c2 f2 hcalc hrec ih =>
    intro hch hend
    have hd : rest.dropWhile (fun x => x.type ≠ .DPT) ≠ [] := by
      intro hc
      rw [hc] at hrec
      simp [segmentLoop] at hrec
    have hsuf : rest.dropWhile (fun x => x.type ≠ .DPT) <:+ (Node.dpt d :: rest) :=
      (List.dropWhile_suffix _).trans (List.suffix_cons _ _)
    have hends2 : EndsOnCustomer (rest.dropWhile (fun x => x.type ≠ .DPT)) := by
      rcases hend with h | ⟨x, hx, hxt⟩
      · simp at h
      · refine Or.inr ⟨x, ?_, hxt⟩
        rw [← getLast?_of_suffix hsuf hd]
        exact hx
    have := ih (hch.tail.suffix (List.dropWhile_suffix _)) hends2
    rw [hrec] at this
    exact absurd this (by simp)
  | case5 d rest p hhead hp c2 f2 hcalc c3 f3 hrec ih =>
    intro hch hend
    have hval : segmentLoop inst (Node.dpt d :: rest) = some (c2 + c3, f2 && f3) := by
      rw [show segmentLoop inst (Node.dpt d :: rest)
          = match rest.head? with
            | none => none
            | some m =>
              if m.type = .CSTMR then
                match calc_cost_cap_subsequence inst d
                    (rest.takeWhile (fun x => x.type ≠ .DPT)) with
                | none => none
                | some (c, f) =>
                  match segmentLoop inst (rest.dropWhile (fun x => x.type ≠ .DPT)) with
                  | none => none
                  | some (c2, f2) => some (c + c2, f && f2)
              else segmentLoop inst rest from by rw [segmentLoop]]
      rw [hhead]
      simp only [hp, if_true, hcalc, hrec]
    rw [hval]
    rfl
  | case6 d rest p hhead hp ih =>
    intro hch hend
    have hne : rest ≠ [] := by
      intro hc
      rw [hc] at hhead
      exact absurd hhead (by simp)
    have hval : segmentLoop inst (Node.dpt d :: rest) = segmentLoop inst rest := by
      rw [show segmentLoop inst (Node.dpt d :: rest)
          = match rest.head? with
            | none => none
            | some m =>
              if m.type = .CSTMR then
                match calc_cost_cap_subsequence inst d
                    (rest.takeWhile (fun x => x.type ≠ .DPT)) with
                | none => none
                | some (c, f) =>
                  match segmentLoop inst (rest.dropWhile (fun x => x.type ≠ .DPT)) with
                  | none => none
                  | some (c2, f2) => some (c + c2, f && f2)
              else segmentLoop inst rest from by rw [segmentLoop]]
      rw [hhead]
      simp only [hp, if_false]
    rw [hval]
    exact ih hch.tail (EndsOnCustomer_of_cons hne hend)
  | case7 hd rest hnotdpt ih =>
    intro hch hend
    have hval : segmentLoop inst (hd :: rest) = segmentLoop inst rest := by
      cases hd with
      | dpt d => exact absurd rfl (fun h => hnotdpt d h)
      | cstmr c =>
        rw [segmentLoop]
        exact fun d h => nomatch h
      | dzr z =>
        rw [segmentLoop]
        exact fun d h => nomatch h
    rw [hval]
    by_cases hne : rest = []
    · subst hne
      simp [segmentLoop]
    · exact ih hch.tail (EndsOnCustomer_of_cons hne hend)


theorem calc_result_isSome (inst : Instance) (valid : Bool) (seq : List Node) :
    (calc_result inst valid seq).isSome := by
  unfold calc_result
  cases valid with
  | false => simp
  | true =>
    simp only [if_true]
    exact segmentLoop_isSome inst _ (reduce_list_good seq) (reduce_list_ends seq)

theorem set_solution_isSome (s : Solution) (seq : List Node) :
    (s.set_solution seq).isSome := by
  unfold Solution.set_solution
  obtain ⟨⟨c, f⟩, heq⟩ := Option.isSome_iff_exists.mp (calc_result_isSome s.inst s._is_valid seq)
  rw [heq]
  rfl


/-- C8: the reduction step of the evaluator is idempotent — applying
`_reduce_list` to an already-reduced sequence returns it unchanged — and
a reduced sequence has no consecutive route-break markers, no marker
directly following a depot, and ends on a customer or is empty. -/
theorem reduction_idempotent (seq : List Node) :
    reduce_list (reduce_list seq) = reduce_list seq
    ∧ List.Chain' noConsecutiveDZR (reduce_list seq)
    ∧ List.Chain' noDZRAfterDPT (reduce_list seq)
    ∧ EndsOnCustomer (reduce_list seq) :=
  ⟨reduce_list_idem seq, reduce_list_noCC seq, reduce_list_noDZ seq, reduce_list_ends seq⟩

/-- C7: for every raw sequence, after reduction the node preceding any
route-break marker is a customer, and the cost evaluator completes
without any error: in particular no distance lookup ever receives a
route-break marker (`sol_get_distance` returns `none` on a marker and
every such `none` propagates to the overall result, so `isSome` means
the marker-guard branch was never taken). -/
theorem evaluator_never_queries_marker (inst : Instance) (valid : Bool) (seq : List Node) :
    List.Chain' markerPrecededByCustomer (reduce_list seq)
    ∧ (calc_result inst valid seq).isSome :=
  ⟨reduce_list_good seq, calc_result_isSome inst valid seq⟩

/-- C10: a solution freshly constructed from an instance, before any
`set_solution` or append, reports quality `(0.0, feasible = true)` and
`is_valid_solution` returns true. -/
theorem fresh_solution_zero_feasible (inst : Instance) :
    (Solution.init inst).get_quality = ((0 : WithTop ℚ), true)
    ∧ (Solution.init inst).is_valid_solution.2 = true :=
  ⟨rfl, rfl⟩

/-- C1: evaluating the hand-built sequence `[D1, C1, C2, Break, C3, C4,
D2]` on the 2-depot, 4-customer scenario instance yields the feasible
quality `(147, true)`, while the claimed cost formula — which includes
the closing leg `dist(C4, D1) = 8` of the block's final route — equals
155: the evaluator (whose source carries a `TODO fix cost function`
comment) never charges the return leg of the last route of a block, so
the claim's formula disagrees with the code by exactly that leg. -/
theorem scenario_cost_misses_final_leg :
    ((Solution.init inst1).set_solution scenarioSeq).map Solution.get_quality
      = some (((147 : ℚ) : WithTop ℚ), true)
    ∧ (D1.cost : WithTop ℚ) + 2 * (inst1.route_setup_cost : WithTop ℚ)
        + inst1.get_distance (Node.dpt D1) (Node.cstmr C1)
        + inst1.get_distance (Node.cstmr C1) (Node.cstmr C2)
        + inst1.get_distance (Node.cstmr C2) (Node.dpt D1)
        + inst1.get_distance (Node.dpt D1) (Node.cstmr C3)
        + inst1.get_distance (Node.cstmr C3) (Node.cstmr C4)
        + inst1.get_distance (Node.cstmr C4) (Node.dpt D1) = ((155 : ℚ) : WithTop ℚ)
    ∧ inst1.get_distance (Node.cstmr C4) (Node.dpt D1) = ((8 : ℚ) : WithTop ℚ)
    ∧ ((147 : ℚ) : WithTop ℚ) ≠ ((155 : ℚ) : WithTop ℚ) := by
  refine ⟨?_, ?_, ?_, ?_⟩ <;> with_unfolding_all decide

/-- C2 counterexample: handing a sequence that violates the seen-depot
rule to `set_solution` on a freshly created solution caches the quality
`(147, true)` — a finite, feasible value, not `(∞, false)` — because
`set_solution` reads the stale validity flag and never runs the scan
itself; the subsequent `is_valid_solution` call does mark the solution
invalid. -/
theorem invalid_sequence_cached_quality :
    ((Solution.init inst1).set_solution invalidSeq).map
        (fun s1 => (s1.is_valid_solution.2, s1.get_quality))
      = some (false, (((147 : ℚ) : WithTop ℚ), true))
    ∧ ((((147 : ℚ) : WithTop ℚ), true) ≠ ((⊤ : WithTop ℚ), false)) := by
  refine ⟨?_, ?_⟩ <;> with_unfolding_all decide


/-- C2 (amended): for every solution whose cached validity flag is true
and every sequence with a customer before the first depot, the
`is_valid_solution` check run after `set_solution` returns false (and
stores the flag), and any `set_solution` performed after that marking
caches the quality `(∞, feasible = false)`; the quality cached by the
first `set_solution` itself is computed as if the sequence were
valid. -/
theorem invalid_marked_then_infinite (s : Solution) (seq seq2 : List Node)
    (hseq : seenScan false seq = false) (hv : s._is_valid = true) :
    (s.set_solution seq).map (fun s1 => s1.is_valid_solution.2) = some false
    ∧ ((s.set_solution seq).bind
        (fun s1 => s1.is_valid_solution.1.set_solution seq2)).map Solution.get_quality
      = some ((⊤ : WithTop ℚ), false) := by
  obtain ⟨⟨c, f⟩, hc⟩ := Option.isSome_iff_exists.mp (calc_result_isSome s.inst s._is_valid seq)
  have hss : s.set_solution seq
      = some { s with _sequence := seq, _cost := c, _feasible := f } := by
    unfold Solution.set_solution
    rw [hc]
  refine ⟨?_, ?_⟩
  · rw [hss]
    simp only [Option.map_some']
    unfold Solution.is_valid_solution
    simpa using hseq
  · rw [hss]
    simp only [Option.some_bind, Option.bind_some]
    unfold Solution.is_valid_solution
    simp only [hseq]
    unfold Solution.set_solution calc_result
    simp [Solution.get_quality]

/-- C2 witness: the amended claim instantiated on the concrete invalid
sequence. -/
theorem invalid_marked_then_infinite_witness :
    seenScan false invalidSeq = false
    ∧ (((Solution.init inst1).set_solution invalidSeq).map
          (fun s1 => s1.is_valid_solution.2) = some false
      ∧ (((Solution.init inst1).set_solution invalidSeq).bind
          (fun s1 => s1.is_valid_solution.1.set_solution scenarioSeq)).map
            Solution.get_quality = some ((⊤ : WithTop ℚ), false)) :=
  ⟨by with_unfolding_all decide,
   invalid_marked_then_infinite (Solution.init inst1) invalidSeq scenarioSeq
     (by with_unfolding_all decide) rfl⟩


/-- C3 counterexample: on a solution holding the single node `D1` the
swap operator's weighted pool has one entry and `apply` raises from
`random.sample` (modelled as `none`) instead of returning the input
solution with its cached feasibility; the claim as stated is false for
Swap. -/
theorem swap_starvation_raises :
    (swap_pool solD1._sequence).length = 1 ∧ swap_apply solD1 0 0 = none := by
  refine ⟨?_, ?_⟩ <;> with_unfolding_all decide

/-- C3 (amended): Insert with fewer than 2 candidates, and 2-Opt with an
empty candidate-depot list, return the input solution unchanged together
with its cached feasibility and never raise; Swap has no starvation
guard and raises a `ValueError` from `random.sample` whenever its
weighted pool has fewer than 2 entries. -/
theorem operator_starvation_behavior :
    (∀ (sol : Solution) (r1 r2 : ℕ), (insert_candidates sol._sequence).length < 2 →
        insert_apply sol r1 r2 = some (sol, sol._feasible))
    ∧ (∀ (sol : Solution) (rD r1 r2 : ℕ), candidate_depots sol._sequence = [] →
        twoopt_apply sol rD r1 r2 = some (sol, sol._feasible))
    ∧ (∀ (sol : Solution) (r1 r2 : ℕ), (swap_pool sol._sequence).length < 2 →
        swap_apply sol r1 r2 = none) := by
  refine ⟨?_, ?_, ?_⟩
  · intro sol r1 r2 h
    unfold insert_apply insert_edit
    simp only [if_pos h]
    rfl
  · intro sol rD r1 r2 h
    unfold twoopt_apply twoopt_edit
    simp only [h, List.length_nil, dite_eq_ite, if_pos rfl]
    rfl
  · intro sol r1 r2 h
    unfold swap_apply swap_edit sample2
    rw [dif_neg (by omega)]
    rfl

/-- C3 witness: the amended claim instantiated on the single-depot
solution. -/
theorem operator_starvation_behavior_witness :
    ((insert_candidates solD1._sequence).length < 2
      ∧ candidate_depots solD1._sequence = []
      ∧ (swap_pool solD1._sequence).length < 2)
    ∧ insert_apply solD1 0 0 = some (solD1, solD1._feasible)
    ∧ twoopt_apply solD1 3 4 5 = some (solD1, solD1._feasible)
    ∧ swap_apply solD1 7 8 = none :=
  ⟨⟨by with_unfolding_all decide, by with_unfolding_all decide, by with_unfolding_all decide⟩,
   operator_starvation_behavior.1 solD1 0 0 (by with_unfolding_all decide),
   operator_starvation_behavior.2.1 solD1 3 4 5 (by with_unfolding_all decide),
   operator_starvation_behavior.2.2 solD1 7 8 (by with_unfolding_all decide)⟩


theorem nodes_not_marker (inst : Instance) : ∀ n ∈ inst.nodes, n.type ≠ .DZR := by
  intro n hn
  unfold Instance.nodes at hn
  rw [List.mem_append] at hn
  rcases hn with hn | hn <;> rw [List.mem_map] at hn <;> obtain ⟨x, _, rfl⟩ := hn <;>
    simp [Node.type]

theorem distance_matrix_keys (inst : Instance) :
    ∀ e ∈ inst.distance_matrix, e.1.1.type ≠ .DZR ∧ e.1.2.type ≠ .DZR := by
  intro e he
  unfold Instance.distance_matrix at he
  simp only [List.mem_flatten, List.mem_map] at he
  obtain ⟨l, ⟨p, hp, rfl⟩, hel⟩ := he
  rw [List.mem_filterMap] at hel
  obtain ⟨q, hq, hval⟩ := hel
  by_cases hpq : p.1 ≠ q.1
  · rw [if_pos hpq] at hval
    obtain rfl := Option.some_inj.mp hval |>.symm
    exact ⟨nodes_not_marker inst p.2 (List.snd_mem_of_mem_enum hp),
      nodes_not_marker inst q.2 (List.snd_mem_of_mem_enum hq)⟩
  · rw [if_neg hpq] at hval
    exact nomatch hval

/-- C4 (amended): whenever either node is a route-break marker — markers
are never placed in the distance table — or the ordered pair is absent
from the table, `Instance.get_distance` returns `float('inf')` (the
dictionary-lookup default) rather than failing with a `NotFound`
error. -/
theorem get_distance_marker_or_absent (inst : Instance) (n1 n2 : Node)
    (h : n1.type = .DZR ∨ n2.type = .DZR ∨
      inst.distance_matrix.find? (fun e => e.1 = (n1, n2)) = none) :
    inst.get_distance n1 n2 = ⊤ := by
  unfold Instance.get_distance
  have hnone : inst.distance_matrix.find? (fun e => e.1 = (n1, n2)) = none := by
    rcases h with h | h | h
    · rw [List.find?_eq_none]
      intro e he hc
      simp only [decide_eq_true_eq] at hc
      exact (distance_matrix_keys inst e he).1 (by rw [hc]; exact h)
    · rw [List.find?_eq_none]
      intro e he hc
      simp only [decide_eq_true_eq] at hc
      exact (distance_matrix_keys inst e he).2 (by rw [hc]; exact h)
    · exact h
  rw [hnone]

/-- C4 witness: the amended claim instantiated on a marker query. -/
theorem get_distance_marker_or_absent_witness :
    Z0.type = .DZR ∧ inst1.get_distance Z0 (Node.cstmr C1) = ⊤ :=
  ⟨rfl, get_distance_marker_or_absent inst1 Z0 (Node.cstmr C1) (Or.inl rfl)⟩

/-- C4 counterexample: `get_distance` on a route-break marker, and on an
ordered pair absent from the table, returns the value `∞` instead of
failing with an error; the claim as stated is false. -/
theorem get_distance_returns_value :
    inst1.get_distance Z0 (Node.dpt D1) = ⊤
    ∧ inst1.get_distance (Node.dpt D1) (Node.dpt D1) = ⊤ := by
  refine ⟨?_, ?_⟩ <;> with_unfolding_all decide


theorem apply_outcome_st_parent (st : Store) (p : ℕ) (out : OpOutcome)
    (hp : p < st.next) : (apply_outcome_st st p out).1.mem p = st.mem p := by
  have hne : p ≠ st.next := Nat.ne_of_lt hp
  unfold apply_outcome_st init_new_solution_st Store.alloc Store.write
  cases out with
  | starve => simp [Function.update_noteq hne]
  | err => simp [Function.update_noteq hne]
  | edit seq1 =>
    simp only []
    obtain ⟨ns, hns⟩ := Option.isSome_iff_exists.mp
      (set_solution_isSome (Function.update st.mem st.next
        (init_new_solution (st.mem p)) st.next) seq1)
    rw [hns]
    by_cases hv : ns.is_valid_solution.2 <;>
      simp [hv, Function.update_noteq hne]

/-- C6: on the explicit object store, every operator — whether it
accepts, rejects an invalid candidate, starves, or raises — writes only
to the freshly allocated candidate solution: the parent solution's
attributes (sequence, cached cost, cached feasibility, validity flag)
are identical before and after the call. -/
theorem operators_never_touch_parent (st : Store) (p : ℕ) (hp : p < st.next) :
    (∀ r1 r2, (insert_apply_st st p r1 r2).1.mem p = st.mem p)
    ∧ (∀ r1 r2, (swap_apply_st st p r1 r2).1.mem p = st.mem p)
    ∧ (∀ rD r1 r2, (twoopt_apply_st st p rD r1 r2).1.mem p = st.mem p) :=
  ⟨fun _ _ => apply_outcome_st_parent st p _ hp,
   fun _ _ => apply_outcome_st_parent st p _ hp,
   fun _ _ _ => apply_outcome_st_parent st p _ hp⟩

/-- C6 witness: the claim instantiated on a one-object store. -/
theorem operators_never_touch_parent_witness :
    (0 < st0.next)
    ∧ (insert_apply_st st0 0 0 1).1.mem 0 = st0.mem 0
    ∧ (swap_apply_st st0 0 2 3).1.mem 0 = st0.mem 0
    ∧ (twoopt_apply_st st0 0 4 5 6).1.mem 0 = st0.mem 0 :=
  ⟨by decide,
   (operators_never_touch_parent st0 0 (by decide)).1 0 1,
   (operators_never_touch_parent st0 0 (by decide)).2.1 2 3,
   (operators_never_touch_parent st0 0 (by decide)).2.2 4 5 6⟩


theorem saStep_temp_le (prm : SimulatedAnnealingParameters) (I : ℕ) (st : SAState)
    (inp : SAStepInput) (ha1 : prm.a < 1) (ht : 0 ≤ st.current_temp) :
    (saStep prm I st inp).current_temp ≤ st.current_temp := by
  unfold saStep
  by_cases h1 : st.done
  · simp [h1]
  · simp only [h1, if_false]
    by_cases h2 : ¬(prm.TF < st.current_temp)
    · simp [h2]
    · simp only [h2, if_false]
      by_cases h3 : st.i_count + 1 = I
      · simp only [h3, if_pos rfl]
        exact mul_le_of_le_one_left ht ha1.le
      · simp [h3]

theorem saStep_done_frozen (prm : SimulatedAnnealingParameters) (I : ℕ) (st : SAState)
    (inp : SAStepInput) (h : st.done = true) : saStep prm I st inp = st := by
  unfold saStep
  simp [h]

theorem saRun_done_frozen (prm : SimulatedAnnealingParameters) (I : ℕ) :
    ∀ (inps : List SAStepInput) (st : SAState), st.done = true →
      saRun prm I st inps = st := by
  intro inps
  induction inps with
  | nil => intro st _; rfl
  | cons inp rest ih =>
    intro st h
    unfold saRun
    rw [List.foldl_cons, saStep_done_frozen prm I st inp h]
    exact ih st h

theorem saStep_temp_nonneg (prm : SimulatedAnnealingParameters) (I : ℕ) (st : SAState)
    (inp : SAStepInput) (ha0 : 0 < prm.a) (ht : 0 ≤ st.current_temp) :
    0 ≤ (saStep prm I st inp).current_temp := by
  unfold saStep
  by_cases h1 : st.done
  · simpa [h1] using ht
  · simp only [h1, if_false]
    by_cases h2 : ¬(prm.TF < st.current_temp)
    · simpa [h2] using ht
    · simp only [h2, if_false]
      by_cases h3 : st.i_count + 1 = I
      · simp only [h3, if_pos rfl]
        exact mul_nonneg ha0.le ht
      · simpa [h3] using ht

theorem saRun_temp_le (prm : SimulatedAnnealingParameters) (I : ℕ)
    (ha0 : 0 < prm.a) (ha1 : prm.a < 1) :
    ∀ (inps : List SAStepInput) (st : SAState), 0 ≤ st.current_temp →
      (saRun prm I st inps).current_temp ≤ st.current_temp := by
  intro inps
  induction inps with
  | nil => intro st _; exact le_refl _
  | cons inp rest ih =>
    intro st ht
    unfold saRun
    rw [List.foldl_cons]
    exact le_trans (ih (saStep prm I st inp) (saStep_temp_nonneg prm I st inp ha0 ht))
      (saStep_temp_le prm I st inp ha1 ht)


theorem saRun_window (prm : SimulatedAnnealingParameters) (I : ℕ)
    (ha0 : 0 < prm.a) (ha1 : prm.a < 1) :
    ∀ (inps : List SAStepInput) (st : SAState),
      st.done = false → 0 < st.current_temp → st.i_count < I →
      inps.length = I - st.i_count →
      (saRun prm I st inps).done = true
      ∨ (saRun prm I st inps).current_temp < st.current_temp := by
  intro inps
  induction inps with
  | nil =>
    intro st hdone ht hi hlen
    exact absurd hlen (by simp only [List.length_nil]; omega)
  | cons inp rest ih =>
    intro st hdone ht hi hlen
    have hfold : saRun prm I st (inp :: rest) = saRun prm I (saStep prm I st inp) rest := by
      unfold saRun
      rw [List.foldl_cons]
    rw [hfold]
    by_cases htf : prm.TF < st.current_temp
    · by_cases hiI : st.i_count + 1 = I
      · have htemp : (saStep prm I st inp).current_temp = prm.a * st.current_temp := by
          simp [saStep, hdone, htf, hiI]
        refine Or.inr (lt_of_le_of_lt (b := prm.a * st.current_temp) ?_ ?_)
        · exact le_of_le_of_eq
            (saRun_temp_le prm I ha0 ha1 rest _ (by rw [htemp]; exact mul_nonneg ha0.le ht.le))
            htemp
        · exact mul_lt_of_lt_one_left ht ha1
      · by_cases hd1 : (saStep prm I st inp).done = true
        · rw [saRun_done_frozen prm I rest _ hd1]
          exact Or.inl hd1
        · have htemp : (saStep prm I st inp).current_temp = st.current_temp := by
            simp [saStep, hdone, htf, hiI]
          have hicount : (saStep prm I st inp).i_count = st.i_count + 1 := by
            simp [saStep, hdone, htf, hiI]
          have h := ih (saStep prm I st inp) (Bool.not_eq_true _ |>.mp hd1)
            (by rw [htemp]; exact ht) (by rw [hicount]; omega)
            (by rw [hicount]; simp only [List.length_cons] at hlen; omega)
          rw [htemp] at h
          exact h
    · have hstep : saStep prm I st inp = { st with done := true } := by
        simp [saStep, hdone, htf]
      rw [hstep, saRun_done_frozen prm I rest _ rfl]
      exact Or.inl rfl


/-- C9: with a cooling rate in `(0, 1)`, every micro-iteration of the
driver leaves the temperature unchanged or multiplied by the cooling
rate (so the temperature sequence is non-increasing), and from any live
state a window of `Iiter * len(nodes)` micro-iterations either reaches a
driver return or strictly decreases the temperature. -/
theorem cooling_monotone_and_strict (prm : SimulatedAnnealingParameters) (inst : Instance)
    (st st2 : SAState) (inps : List SAStepInput) (inp2 : SAStepInput)
    (ha0 : 0 < prm.a) (ha1 : prm.a < 1) (ht2 : 0 ≤ st2.current_temp)
    (hdone : st.done = false) (ht : 0 < st.current_temp)
    (hi : st.i_count < per_temp_iters prm inst)
    (hlen : inps.length = per_temp_iters prm inst - st.i_count) :
    (saStep prm (per_temp_iters prm inst) st2 inp2).current_temp ≤ st2.current_temp
    ∧ ((saRun prm (per_temp_iters prm inst) st inps).done = true
      ∨ (saRun prm (per_temp_iters prm inst) st inps).current_temp < st.current_temp) :=
  ⟨saStep_temp_le prm (per_temp_iters prm inst) st2 inp2 ha1 ht2,
   saRun_window prm (per_temp_iters prm inst) ha0 ha1 inps st hdone ht hi hlen⟩

/-- C9 witness: the claim instantiated on concrete small parameters and
a 6-step window. -/
theorem cooling_monotone_and_strict_witness :
    (0 < prmW.a ∧ prmW.a < 1 ∧ (0 : ℚ) ≤ stW.current_temp ∧ stW.done = false
      ∧ 0 < stW.current_temp ∧ stW.i_count < per_temp_iters prmW inst1
      ∧ (List.replicate 6 inpW).length = per_temp_iters prmW inst1 - stW.i_count)
    ∧ ((saStep prmW (per_temp_iters prmW inst1) stW inpW).current_temp ≤ stW.current_temp
      ∧ ((saRun prmW (per_temp_iters prmW inst1) stW (List.replicate 6 inpW)).done = true
        ∨ (saRun prmW (per_temp_iters prmW inst1) stW
            (List.replicate 6 inpW)).current_temp < stW.current_temp)) :=
  ⟨⟨by with_unfolding_all decide, by with_unfolding_all decide, by with_unfolding_all decide,
    rfl, by with_unfolding_all decide, by with_unfolding_all decide,
    by with_unfolding_all decide⟩,
   cooling_monotone_and_strict prmW inst1 stW stW (List.replicate 6 inpW) inpW
    (by with_unfolding_all decide) (by with_unfolding_all decide)
    (by with_unfolding_all decide) rfl (by with_unfolding_all decide)
    (by with_unfolding_all decide) (by with_unfolding_all decide)⟩


theorem twoOptScan_spec (seq : List Node) :
    ∀ (j : ℕ) (acc : List (Node × ℕ)), j < seq.length →
      (twoOptScan seq j acc).1.map Prod.fst = acc.map Prod.fst ++ specFrom seq j
      ∧ ((twoOptScan seq j acc).2
          = decide (2 ≤ acc.length + (specFrom seq j).length)) := by
  intro j0 acc0
  induction j0, acc0 using twoOptScan.induct seq with
  | case1 j acc h fol cond =>
    intro hj
    have cond' : (seq.get ⟨j, h⟩).type = NodeType.DPT ∨ j = seq.length - 1 := cond
    have hscan : twoOptScan seq j acc = (acc, decide (2 ≤ acc.length)) := by
      rw [twoOptScan, dif_pos h, if_pos cond']
    have hspec : specFrom seq j = [] := by
      by_cases hl : seq.length - 1 ≤ j
      · unfold specFrom
        rw [List.drop_eq_nil_of_le (by rw [List.length_take]; omega)]
        rfl
      · have hdpt : seq[j].type = NodeType.DPT := by
          cases cond' with
          | inl hc => exact hc
          | inr hc => exact absurd hc (by omega)
        unfold specFrom
        have hjt : j < (seq.take (seq.length - 1)).length := by
          rw [List.length_take]; omega
        rw [List.drop_eq_getElem_cons hjt, List.getElem_take,
          List.takeWhile_cons_of_neg (by simp [hdpt])]
        rfl
    rw [hscan, hspec]
    simp
  | case2 j acc h fol cond hcstmr ih =>
    intro hj
    have cond' : ¬((seq.get ⟨j, h⟩).type = NodeType.DPT ∨ j = seq.length - 1) := cond
    have hcstmr' : seq[j].type = NodeType.CSTMR := hcstmr
    have hnl : ¬ j = seq.length - 1 := fun hc => cond' (Or.inr hc)
    have hj1 : j + 1 < seq.length := by omega
    obtain ⟨ih1, ih2⟩ := ih hj1
    have hcons : specFrom seq j = seq[j] :: specFrom seq (j + 1) := by
      unfold specFrom
      have hjt : j < (seq.take (seq.length - 1)).length := by
        rw [List.length_take]; omega
      rw [List.drop_eq_getElem_cons hjt, List.getElem_take,
        List.takeWhile_cons_of_pos (by simp [hcstmr']),
        List.filter_cons_of_pos (by simp [hcstmr'])]
    have hscan : twoOptScan seq j acc
        = twoOptScan seq (j + 1) (acc ++ [(seq.get ⟨j, h⟩, j)]) := by
      rw [twoOptScan, dif_pos h, if_neg cond', if_pos hcstmr]
    rw [hscan, hcons]
    refine ⟨?_, ?_⟩
    · rw [ih1]
      simp
      rfl
    · rw [ih2]
      rw [show (acc ++ [(seq.get ⟨j, h⟩, j)]).length + (specFrom seq (j + 1)).length
          = acc.length + (seq[j] :: specFrom seq (j + 1)).length from by
        simp
        omega]
  | case3 j acc h fol cond hnc ih =>
    intro hj
    have cond' : ¬((seq.get ⟨j, h⟩).type = NodeType.DPT ∨ j = seq.length - 1) := cond
    have hnc' : ¬ seq[j].type = NodeType.CSTMR := hnc
    have hnd : ¬ seq[j].type = NodeType.DPT := fun hc => cond' (Or.inl hc)
    have hnl : ¬ j = seq.length - 1 := fun hc => cond' (Or.inr hc)
    have hj1 : j + 1 < seq.length := by omega
    have hcons : specFrom seq j = specFrom seq (j + 1) := by
      unfold specFrom
      have hjt : j < (seq.take (seq.length - 1)).length := by
        rw [List.length_take]; omega
      rw [List.drop_eq_getElem_cons hjt, List.getElem_take,
        List.takeWhile_cons_of_pos (by simpa using hnd),
        List.filter_cons_of_neg (by simpa using hnc')]
    have hscan : twoOptScan seq j acc = twoOptScan seq (j + 1) acc := by
      rw [twoOptScan, dif_pos h, if_neg cond', if_neg hnc]
    rw [hscan, hcons]
    exact ih hj1
  | case4 j acc h =>
    intro hj
    exact absurd hj h


theorem twoOptScan_flag (seq : List Node) (i : ℕ) (hi : i < seq.length) :
    ((twoOptScan seq (i + 1) []).2 = true ↔ 2 ≤ (counted_customers seq i).length) := by
  by_cases h1 : i + 1 < seq.length
  · rw [(twoOptScan_spec seq (i + 1) [] h1).2,
      show counted_customers seq i = specFrom seq (i + 1) from rfl]
    simp
  · have hscan : twoOptScan seq (i + 1) [] = ([], false) := by
      rw [twoOptScan, dif_neg h1]
    have hcount : counted_customers seq i = [] := by
      unfold counted_customers spec_block_customers
      rw [List.drop_eq_nil_of_le (by rw [List.length_take]; omega)]
      rfl
    rw [hscan, hcount]
    simp

theorem candidate_depots_mem (seq : List Node) (i : ℕ) (n : Node) :
    (n, i) ∈ candidate_depots seq ↔
      ∃ h : i < seq.length, seq.get ⟨i, h⟩ = n ∧ n.type = .DPT
        ∧ 2 ≤ (counted_customers seq i).length := by
  unfold candidate_depots
  rw [List.mem_filterMap]
  constructor
  · rintro ⟨⟨j, x⟩, hp, hval⟩
    by_cases hc : x.type = .DPT ∧ (twoOptScan seq (j + 1) []).2
    · rw [if_pos hc] at hval
      have hx : x = n ∧ j = i := by
        have h2 := Option.some_inj.mp hval
        rw [Prod.mk.injEq] at h2
        exact h2
      obtain ⟨rfl, rfl⟩ := hx
      have hj := List.mem_enum_iff_getElem?.mp hp
      simp only at hj
      obtain ⟨hlt, hget⟩ := List.getElem?_eq_some_iff.mp hj
      exact ⟨hlt, hget, hc.1, (twoOptScan_flag seq j hlt).mp hc.2⟩
    · rw [if_neg hc] at hval
      exact nomatch hval
  · rintro ⟨h, hget, htype, hcount⟩
    refine ⟨(i, n), ?_, ?_⟩
    · rw [List.mem_enum_iff_getElem?]
      simp only
      exact List.getElem?_eq_some_iff.mpr ⟨h, hget⟩
    · rw [if_pos ⟨htype, (twoOptScan_flag seq i h).mpr hcount⟩]


theorem twoOptEdit_mirror (seq : List Node) (p q : ℕ) (hpq : p < q) (hq : q < seq.length) :
    (twoOptEdit seq p q).length = seq.length
    ∧ ∀ j, (twoOptEdit seq p q)[j]?
        = if p < j ∧ j < q then seq[p + q - j]? else seq[j]? := by
  have hlen1 : (seq.take (p + 1)).length = p + 1 := by
    rw [List.length_take]; omega
  have hmid : ((seq.drop (p + 1)).take (q - (p + 1))).length = q - (p + 1) := by
    rw [List.length_take, List.length_drop]; omega
  have hlenmid : (((seq.drop (p + 1)).take (q - (p + 1))).reverse).length = q - (p + 1) := by
    rw [List.length_reverse, hmid]
  refine ⟨?_, ?_⟩
  · unfold twoOptEdit
    rw [List.length_append, List.length_append, hlen1, hlenmid, List.length_drop]
    omega
  · intro j
    unfold twoOptEdit
    rw [List.append_assoc]
    by_cases h1 : j ≤ p
    · rw [if_neg (by omega)]
      rw [List.getElem?_append, hlen1, if_pos (by omega)]
      rw [List.getElem?_take, if_pos (by omega)]
    · by_cases h2 : j < q
      · rw [if_pos ⟨by omega, h2⟩]
        rw [List.getElem?_append, hlen1, if_neg (by omega)]
        rw [List.getElem?_append, hlenmid, if_pos (by omega)]
        rw [List.getElem?_reverse (by rw [hmid]; omega), hmid]
        rw [List.getElem?_take, if_pos (by omega)]
        rw [List.getElem?_drop]
        congr 1
        omega
      · rw [if_neg (by omega)]
        rw [List.getElem?_append, hlen1, if_neg (by omega)]
        rw [List.getElem?_append, hlenmid, if_neg (by omega)]
        rw [List.getElem?_drop]
        congr 1
        omega


/-- C5 counterexample: in the sequence `[D1, C1, C2]` the depot's block
contains 2 customers, yet the candidate-depot list is empty — the scan
breaks at the last sequence position before counting the customer
there — so the candidate depots are not exactly the depots with at
least 2 block customers; the claim as stated is false. -/
theorem last_position_customer_not_counted :
    (spec_block_customers seqD1C1C2 0).length = 2
    ∧ (Node.dpt D1).type = .DPT
    ∧ candidate_depots seqD1C1C2 = [] := by
  refine ⟨?_, rfl, ?_⟩ <;> with_unfolding_all decide

/-- C5 (amended): a depot is a 2-opt candidate exactly when at least 2
customers follow it before the next depot *and before the final
position of the sequence* (the scan tests the last position before it
could be counted); and the edit reverses exactly the subsequence
strictly between the two chosen positions, leaving the chosen positions
and everything outside them unchanged. -/
theorem twoopt_candidates_and_reversal :
    (∀ (seq : List Node) (i : ℕ) (n : Node),
        ((n, i) ∈ candidate_depots seq ↔
          ∃ h : i < seq.length, seq.get ⟨i, h⟩ = n ∧ n.type = .DPT
            ∧ 2 ≤ (counted_customers seq i).length))
    ∧ (∀ (seq : List Node) (p q : ℕ), p < q → q < seq.length →
        (twoOptEdit seq p q).length = seq.length
        ∧ ∀ j, (twoOptEdit seq p q)[j]?
            = if p < j ∧ j < q then seq[p + q - j]? else seq[j]?) :=
  ⟨candidate_depots_mem, twoOptEdit_mirror⟩

/-- C5 witness: the amended claim instantiated on concrete sequences. -/
theorem twoopt_candidates_and_reversal_witness :
    ((Node.dpt D1, 0) ∈ candidate_depots seqD1C1C2C3)
    ∧ (twoOptEdit scenarioSeq 1 4).length = scenarioSeq.length
    ∧ (twoOptEdit scenarioSeq 1 4)[2]? = scenarioSeq[3]? :=
  ⟨(twoopt_candidates_and_reversal.1 seqD1C1C2C3 0 (Node.dpt D1)).mpr
    ⟨by with_unfolding_all decide, rfl, rfl, by with_unfolding_all decide⟩,
   (twoopt_candidates_and_reversal.2 scenarioSeq 1 4 (by decide)
      (by with_unfolding_all decide)).1,
   by
    have h := (twoopt_candidates_and_reversal.2 scenarioSeq 1 4 (by decide)
      (by with_unfolding_all decide)).2 2
    rw [if_pos (by decide)] at h
    exact h⟩

end CLRP
